import Mathlib

/-!
# Verification of the indicator computations of `sf.py`

Shallow embedding of the numeric core of the stock-dashboard script:
the simple moving average (`data["Close"].rolling(50).mean()`), the RSI
pipeline (`diff` / `where` / `rolling(14).mean()` / the arithmetic on the
resulting series), the summary metrics (latest price, change, period
high/low, mean volume), and the historical-table preparation.

Reals are modelled by `ℚ`; a pandas `NaN` cell is modelled by `Option`
(for rolling outputs) and by an explicit extended-value type `XFloat`
(for the RSI arithmetic, where IEEE `inf` also arises).
-/

set_option autoImplicit false

namespace StockAnalysis

/-- One OHLCV row of the fetched dataframe.  The engine reads the
`Close`, `High`, `Low` and `Volume` columns; `date` models the index. -/
structure Obs where
  date : Nat
  close : ℚ
  high : ℚ
  low : ℚ
  volume : ℚ
  deriving DecidableEq, Inhabited, Repr

/-- pandas `Series.rolling(w).mean()` with the default `min_periods = w`
(`w ≥ 1`): cell `i` is `NaN` (`none`) when fewer than `w` observations
end at `i`, and otherwise the mean of cells `i-w+1 .. i`. -/
def rollingMean (w : Nat) (xs : List ℚ) : List (Option ℚ) :=
  (List.range xs.length).map (fun i =>
    if w ≤ i + 1 then some (((xs.take (i + 1)).drop (i + 1 - w)).sum / (w : ℚ))
    else none)

/-- Line 108 of `sf.py`: `sma = data["Close"].rolling(50).mean()` with the
window as a parameter (the script passes 50). -/
def computeSMA (w : Nat) (s : List Obs) : List (Option ℚ) :=
  rollingMean w (s.map Obs.close)

/-- pandas `Series.diff()` (`sf.py` line 126): cell 0 is `NaN`, cell `i ≥ 1`
is `close[i] - close[i-1]`.  The `getD` default is unreachable: `i` ranges
over `List.range xs.length`. -/
def diff (xs : List ℚ) : List (Option ℚ) :=
  (List.range xs.length).map (fun i =>
    if i = 0 then none else some (xs.getD i 0 - xs.getD (i - 1) 0))

/-- Line 127 of `sf.py`, inner series: `delta.where(delta > 0, 0)`.  A cell is
kept where `delta > 0` holds and replaced by `0` elsewhere; at the `NaN`
cell the comparison is false, so the `NaN` is also replaced by `0`. -/
def gainRaw (xs : List ℚ) : List ℚ :=
  (diff xs).map (fun d =>
    match d with
    | none => 0
    | some v => if 0 < v then v else 0)

/-- Line 128 of `sf.py`, inner series: `-delta.where(delta < 0, 0)` — keep the
(negative) cells where `delta < 0`, replace the rest (including the `NaN`)
by `0`, then negate the whole series. -/
def lossRaw (xs : List ℚ) : List ℚ :=
  (diff xs).map (fun d =>
    -(match d with
      | none => (0 : ℚ)
      | some v => if v < 0 then v else 0))

/-- IEEE-754 double values arising in the RSI arithmetic: `NaN`, the two
infinities, and finite values (modelled by `ℚ`; the single zero of `ℚ`
stands for both signed zeros, which the pipeline never distinguishes). -/
inductive XFloat where
  | nan : XFloat
  | inf : XFloat
  | ninf : XFloat
  | fin : ℚ → XFloat
  deriving DecidableEq, Repr

/-- IEEE division as numpy performs it elementwise: `NaN` propagates,
`±∞ / ±∞ = NaN`, `x / ±∞ = 0`, `0 / 0 = NaN`, and division of a nonzero
finite by zero gives a signed infinity. -/
def XFloat.div : XFloat → XFloat → XFloat
  | nan, _ => nan
  | _, nan => nan
  | inf, inf => nan
  | inf, ninf => nan
  | ninf, inf => nan
  | ninf, ninf => nan
  | inf, fin b => if 0 ≤ b then inf else ninf
  | ninf, fin b => if 0 ≤ b then ninf else inf
  | fin _, inf => fin 0
  | fin _, ninf => fin 0
  | fin a, fin b =>
    if b = 0 then (if a = 0 then nan else if 0 < a then inf else ninf)
    else fin (a / b)

/-- IEEE addition: `NaN` propagates, `∞ + (-∞) = NaN`, infinities absorb
finite values. -/
def XFloat.add : XFloat → XFloat → XFloat
  | nan, _ => nan
  | _, nan => nan
  | inf, ninf => nan
  | ninf, inf => nan
  | inf, _ => inf
  | _, inf => inf
  | ninf, _ => ninf
  | _, ninf => ninf
  | fin a, fin b => fin (a + b)

/-- IEEE subtraction: `NaN` propagates, `∞ - ∞ = NaN`, otherwise an
infinite operand dominates. -/
def XFloat.sub : XFloat → XFloat → XFloat
  | nan, _ => nan
  | _, nan => nan
  | inf, inf => nan
  | ninf, ninf => nan
  | inf, _ => inf
  | ninf, _ => ninf
  | _, inf => ninf
  | _, ninf => inf
  | fin a, fin b => fin (a - b)

/-- Lines 129–130 of `sf.py` at one index where both rolling means are
defined: `rs = gain / loss` and `rsi = 100 - (100 / (1 + rs))`. -/
def rsiPoint (g l : ℚ) : XFloat :=
  XFloat.sub (XFloat.fin 100)
    (XFloat.div (XFloat.fin 100)
      (XFloat.add (XFloat.fin 1) (XFloat.div (XFloat.fin g) (XFloat.fin l))))

/-- Lines 126–130 of `sf.py` with the window as a parameter (the script
passes 14): rolling means of the gains and losses, then the `rs`/`rsi`
arithmetic.  Where a rolling mean is `NaN` (`none`) the elementwise
arithmetic yields `NaN`. -/
def computeRSI (w : Nat) (s : List Obs) : List XFloat :=
  List.zipWith
    (fun g l =>
      match g, l with
      | some g, some l => rsiPoint g l
      | _, _ => XFloat.nan)
    (rollingMean w (gainRaw (s.map Obs.close)))
    (rollingMean w (lossRaw (s.map Obs.close)))

/-- pandas `Series.max()` on the nonempty `High` column (`sf.py` line 83);
the `[]` case is unreachable behind the two-point guard. -/
def listMax : List ℚ → ℚ
  | [] => 0
  | [x] => x
  | x :: y :: t => max x (listMax (y :: t))

/-- pandas `Series.min()` on the nonempty `Low` column (`sf.py` line 84). -/
def listMin : List ℚ → ℚ
  | [] => 0
  | [x] => x
  | x :: y :: t => min x (listMin (y :: t))

/-- The engine's only failure: the change-from-previous metric
(`data["Close"].iloc[-2]`, `sf.py` line 74) needs at least two rows. -/
inductive EngineError where
  | insufficientData : EngineError
  deriving DecidableEq, Repr

/-- The metrics row of `sf.py` lines 73–85. -/
structure SummaryStats where
  latest : ℚ
  change : ℚ
  high : ℚ
  low : ℚ
  meanVolume : ℚ
  deriving DecidableEq, Repr

/-- Lines 73–75 and 82–85 of `sf.py`: latest close (`iloc[-1]`), change from
the previous close (`iloc[-2]`), period high/low, mean volume
(pandas `mean` = sum / count).  Negative `iloc` indexes from the end,
modelled by indexing into the reversed list; on fewer than two rows the
`iloc[-2]` access fails. -/
def computeSummary (s : List Obs) : Except EngineError SummaryStats :=
  if 2 ≤ s.length then
    let r := s.reverse
    Except.ok
      { latest := (r.getD 0 default).close
        change := (r.getD 0 default).close - (r.getD 1 default).close
        high := listMax (s.map Obs.high)
        low := listMin (s.map Obs.low)
        meanVolume := (s.map Obs.volume).sum / (s.length : ℚ) }
  else Except.error EngineError.insufficientData

/-- The caller-owned state visible to the engine: the fetched series
(`data` in `main`). -/
structure EngineState where
  series : List Obs
  deriving DecidableEq, Repr

/-- The SMA step of `main` as a state transformer: it reads `data` and
produces a fresh series (`sf.py` line 108 binds a new name `sma`). -/
def runSMA (w : Nat) (st : EngineState) : EngineState × List (Option ℚ) :=
  (st, computeSMA w st.series)

/-- The RSI step of `main` as a state transformer (`sf.py` lines 126–130
bind only new names `delta`, `gain`, `loss`, `rs`, `rsi`). -/
def runRSI (w : Nat) (st : EngineState) : EngineState × List XFloat :=
  (st, computeRSI w st.series)

/-- The metrics step of `main` as a state transformer (`sf.py` lines
73–75 and 82–85 only read `data`). -/
def runSummary (st : EngineState) : EngineState × Except EngineError SummaryStats :=
  (st, computeSummary st.series)

/-- Lines 174–175 of `sf.py`: `log_df = data.sort_index(ascending=False).copy()`
followed by reformatting `log_df.index` — the sort and the index rewrite
happen on the fresh copy `log_df`, never on `data`.  The index is sorted
descending by date; the reformat (`strftime`) only changes the rendering
of the date, so the row data is the sorted copy itself. -/
def prepareHistorical (st : EngineState) : EngineState × List Obs :=
  (st, st.series.insertionSort (fun a b => b.date ≤ a.date))

/-- Python `int()` truncates toward zero. -/
def truncQ (q : ℚ) : Int :=
  if 0 ≤ q then ⌊q⌋ else ⌈q⌉

/-- Line 85 of `sf.py`: the displayed Average Volume is
`int(data['Volume'].mean() / 1e6)` (rendered with an `M` suffix). -/
def displayedAvgVolume (s : List Obs) : Int :=
  truncQ (((s.map Obs.volume).sum / (s.length : ℚ)) / 1000000)

/-! ## Basic lemmas about the embedded pipeline -/

theorem rollingMean_length (w : Nat) (xs : List ℚ) :
    (rollingMean w xs).length = xs.length := by
  simp [rollingMean]

theorem rollingMean_get (w : Nat) (xs : List ℚ) (i : Nat)
    (h : i < (rollingMean w xs).length) :
    (rollingMean w xs).get ⟨i, h⟩ =
      if w ≤ i + 1 then some (((xs.take (i + 1)).drop (i + 1 - w)).sum / (w : ℚ))
      else none := by
  simp [rollingMean]

/-- For a full window the trailing slice rewrites to `drop`-then-`take`. -/
theorem window_take_drop (xs : List ℚ) {w i : Nat} (hw : w ≤ i + 1) :
    ((xs.take (i + 1)).drop (i + 1 - w)) = (xs.drop (i + 1 - w)).take w := by
  rw [List.drop_take]
  congr 1
  omega

theorem window_length (xs : List ℚ) {w i : Nat} (hw : w ≤ i + 1)
    (hi : i < xs.length) :
    ((xs.drop (i + 1 - w)).take w).length = w := by
  simp only [List.length_take, List.length_drop]
  omega

theorem rollingMean_get_of_le (w : Nat) (xs : List ℚ) (i : Nat)
    (hw : w ≤ i + 1) (h : i < (rollingMean w xs).length) :
    (rollingMean w xs).get ⟨i, h⟩ =
      some (((xs.drop (i + 1 - w)).take w).sum / (w : ℚ)) := by
  rw [rollingMean_get, if_pos hw, window_take_drop xs hw]

theorem rollingMean_get_of_lt (w : Nat) (xs : List ℚ) (i : Nat)
    (hw : i + 1 < w) (h : i < (rollingMean w xs).length) :
    (rollingMean w xs).get ⟨i, h⟩ = none := by
  rw [rollingMean_get, if_neg (by omega)]

/-- A defined rolling mean of a pointwise-nonnegative series is
nonnegative. -/
theorem rollingMean_nonneg (w : Nat) (xs : List ℚ) (i : Nat) (q : ℚ)
    (hxs : ∀ x ∈ xs, 0 ≤ x) (h : i < (rollingMean w xs).length)
    (hq : (rollingMean w xs).get ⟨i, h⟩ = some q) : 0 ≤ q := by
  rw [rollingMean_get] at hq
  by_cases hw : w ≤ i + 1
  · rw [if_pos hw] at hq
    have hsum : 0 ≤ ((xs.take (i + 1)).drop (i + 1 - w)).sum := by
      refine List.sum_nonneg (fun x hx => hxs x ?_)
      exact List.mem_of_mem_take (List.mem_of_mem_drop hx)
    have := Option.some.inj hq
    subst this
    exact div_nonneg hsum (by positivity)
  · rw [if_neg hw] at hq
    exact absurd hq (by simp)

theorem diff_length (xs : List ℚ) : (diff xs).length = xs.length := by
  simp [diff]

theorem diff_get (xs : List ℚ) (i : Nat) (h : i < (diff xs).length) :
    (diff xs).get ⟨i, h⟩ =
      if i = 0 then none else some (xs.getD i 0 - xs.getD (i - 1) 0) := by
  simp [diff]

theorem gainRaw_length (xs : List ℚ) : (gainRaw xs).length = xs.length := by
  simp [gainRaw, diff_length]

theorem lossRaw_length (xs : List ℚ) : (lossRaw xs).length = xs.length := by
  simp [lossRaw, diff_length]

theorem gainRaw_get (xs : List ℚ) (i : Nat) (h : i < (gainRaw xs).length) :
    (gainRaw xs).get ⟨i, h⟩ =
      if i = 0 then 0
      else if 0 < xs.getD i 0 - xs.getD (i - 1) 0
        then xs.getD i 0 - xs.getD (i - 1) 0 else 0 := by
  have hd : i < (diff xs).length := by
    simpa [diff_length] using (by simpa [gainRaw_length] using h : i < xs.length)
  simp only [gainRaw, List.get_eq_getElem, List.getElem_map]
  have := diff_get xs i hd
  simp only [List.get_eq_getElem] at this
  rw [this]
  by_cases h0 : i = 0 <;> simp [h0]

theorem lossRaw_get (xs : List ℚ) (i : Nat) (h : i < (lossRaw xs).length) :
    (lossRaw xs).get ⟨i, h⟩ =
      if i = 0 then 0
      else if xs.getD i 0 - xs.getD (i - 1) 0 < 0
        then -(xs.getD i 0 - xs.getD (i - 1) 0) else 0 := by
  have hd : i < (diff xs).length := by
    simpa [diff_length] using (by simpa [lossRaw_length] using h : i < xs.length)
  simp only [lossRaw, List.get_eq_getElem, List.getElem_map]
  have := diff_get xs i hd
  simp only [List.get_eq_getElem] at this
  rw [this]
  by_cases h0 : i = 0
  · simp [h0]
  · simp only [if_neg h0]
    show -(if xs.getD i 0 - xs.getD (i - 1) 0 < 0
            then xs.getD i 0 - xs.getD (i - 1) 0 else 0) =
      if xs.getD i 0 - xs.getD (i - 1) 0 < 0
        then -(xs.getD i 0 - xs.getD (i - 1) 0) else 0
    split_ifs with hv
    · rfl
    · exact neg_zero

theorem gainRaw_nonneg (xs : List ℚ) : ∀ y ∈ gainRaw xs, 0 ≤ y := by
  intro y hy
  obtain ⟨d, _, rfl⟩ := List.mem_map.mp hy
  match d with
  | none => simp
  | some v =>
    by_cases hv : 0 < v <;> simp [hv]
    exact le_of_lt hv

theorem lossRaw_nonneg (xs : List ℚ) : ∀ y ∈ lossRaw xs, 0 ≤ y := by
  intro y hy
  obtain ⟨d, _, rfl⟩ := List.mem_map.mp hy
  match d with
  | none => simp
  | some v =>
    by_cases hv : v < 0 <;> simp [hv]
    exact le_of_lt hv

/-- The `rs`/`rsi` arithmetic when the mean loss is positive: everything is
finite. -/
theorem rsiPoint_of_pos (g l : ℚ) (hg : 0 ≤ g) (hl : 0 < l) :
    rsiPoint g l = XFloat.fin (100 - 100 / (1 + g / l)) := by
  have hl0 : l ≠ 0 := ne_of_gt hl
  have hr : 0 ≤ g / l := div_nonneg hg (le_of_lt hl)
  have h1 : (1 : ℚ) + g / l ≠ 0 := by positivity
  simp [rsiPoint, XFloat.div, XFloat.add, XFloat.sub, hl0, h1]

/-- The `rs`/`rsi` arithmetic when the mean loss is zero and the mean gain is
positive: `rs = +∞` and the RSI saturates at 100. -/
theorem rsiPoint_of_pos_zero (g : ℚ) (hg : 0 < g) :
    rsiPoint g 0 = XFloat.fin 100 := by
  have hg0 : g ≠ 0 := ne_of_gt hg
  simp [rsiPoint, XFloat.div, XFloat.add, XFloat.sub, hg0, hg]

/-- The `rs`/`rsi` arithmetic on a flat window: `0 / 0 = NaN` propagates. -/
theorem rsiPoint_of_zero_zero : rsiPoint 0 0 = XFloat.nan := by
  simp [rsiPoint, XFloat.div, XFloat.add, XFloat.sub]

/-- Wherever the `rsi` arithmetic produces a finite value from nonnegative
rolling means, that value lies in `[0, 100]`. -/
theorem rsiPoint_bounds (g l q : ℚ) (hg : 0 ≤ g) (hl : 0 ≤ l)
    (hq : rsiPoint g l = XFloat.fin q) : 0 ≤ q ∧ q ≤ 100 := by
  rcases lt_or_eq_of_le hl with hl' | hl'
  · rw [rsiPoint_of_pos g l hg hl'] at hq
    have hqe := (XFloat.fin.injEq _ _).mp hq
    subst hqe
    have hr : 0 ≤ g / l := div_nonneg hg (le_of_lt hl')
    have hpos : (0 : ℚ) < 1 + g / l := by linarith
    have hle : 100 / (1 + g / l) ≤ 100 :=
      div_le_self (by norm_num) (by linarith)
    have hgt : 0 < 100 / (1 + g / l) := div_pos (by norm_num) hpos
    constructor <;> linarith
  · rcases lt_or_eq_of_le hg with hg' | hg'
    · rw [← hl', rsiPoint_of_pos_zero g hg'] at hq
      have hqe := (XFloat.fin.injEq _ _).mp hq
      subst hqe
      norm_num
    · rw [← hl', ← hg', rsiPoint_of_zero_zero] at hq
      exact absurd hq (by simp)

theorem computeSMA_length (w : Nat) (s : List Obs) :
    (computeSMA w s).length = s.length := by
  simp [computeSMA, rollingMean_length]

theorem computeRSI_length (w : Nat) (s : List Obs) :
    (computeRSI w s).length = s.length := by
  simp [computeRSI, rollingMean_length, gainRaw_length, lossRaw_length]

/-- Cell `i` of the RSI series, written through the two rolling means. -/
theorem computeRSI_get (w : Nat) (s : List Obs) (i : Nat)
    (h : i < (computeRSI w s).length)
    (hg : i < (rollingMean w (gainRaw (s.map Obs.close))).length)
    (hl : i < (rollingMean w (lossRaw (s.map Obs.close))).length) :
    (computeRSI w s).get ⟨i, h⟩ =
      match (rollingMean w (gainRaw (s.map Obs.close))).get ⟨i, hg⟩,
            (rollingMean w (lossRaw (s.map Obs.close))).get ⟨i, hl⟩ with
      | some g, some l => rsiPoint g l
      | _, _ => XFloat.nan := by
  simp [computeRSI, List.getElem_zipWith]

/-- Strictly-rising closes: each real delta is positive. -/
theorem chain_lt_delta_pos (cs : List ℚ) (hc : List.Chain' (· < ·) cs)
    (j : Nat) (h1 : 1 ≤ j) (h2 : j < cs.length) :
    0 < cs.getD j 0 - cs.getD (j - 1) 0 := by
  have hstep := List.chain'_iff_get.mp hc (j - 1) (by omega)
  have hj : j - 1 + 1 = j := by omega
  simp only [List.get_eq_getElem, hj] at hstep
  rw [List.getD_eq_getElem _ _ h2, List.getD_eq_getElem _ _ (by omega : j - 1 < cs.length)]
  linarith

/-- Strictly-falling closes: each real delta is negative. -/
theorem chain_gt_delta_neg (cs : List ℚ) (hc : List.Chain' (· > ·) cs)
    (j : Nat) (h1 : 1 ≤ j) (h2 : j < cs.length) :
    cs.getD j 0 - cs.getD (j - 1) 0 < 0 := by
  have hstep := List.chain'_iff_get.mp hc (j - 1) (by omega)
  have hj : j - 1 + 1 = j := by omega
  simp only [List.get_eq_getElem, hj] at hstep
  rw [List.getD_eq_getElem _ _ h2, List.getD_eq_getElem _ _ (by omega : j - 1 < cs.length)]
  simp only [gt_iff_lt] at hstep
  linarith

theorem le_listMax : ∀ (l : List ℚ), ∀ x ∈ l, x ≤ listMax l
  | [] => by intro x hx; exact absurd hx (List.not_mem_nil x)
  | [y] => by intro x hx; simp at hx; simp [listMax, hx]
  | y :: z :: t => by
    intro x hx
    rcases List.mem_cons.mp hx with h | h
    · rw [h, listMax]
      exact le_max_left _ _
    · have ih := le_listMax (z :: t) x h
      rw [listMax]
      exact le_trans ih (le_max_right _ _)

theorem listMax_mem : ∀ (l : List ℚ), l ≠ [] → listMax l ∈ l
  | [], h => absurd rfl h
  | [x], _ => by simp [listMax]
  | x :: z :: t, _ => by
    have ih := listMax_mem (z :: t) (by simp)
    rw [listMax]
    rcases max_cases x (listMax (z :: t)) with ⟨he, _⟩ | ⟨he, _⟩
    · rw [he]; exact List.mem_cons_self _ _
    · rw [he]; exact List.mem_cons_of_mem _ ih

theorem listMin_le : ∀ (l : List ℚ), ∀ x ∈ l, listMin l ≤ x
  | [] => by intro x hx; exact absurd hx (List.not_mem_nil x)
  | [y] => by intro x hx; simp at hx; simp [listMin, hx]
  | y :: z :: t => by
    intro x hx
    rcases List.mem_cons.mp hx with h | h
    · rw [h, listMin]
      exact min_le_left _ _
    · have ih := listMin_le (z :: t) x h
      rw [listMin]
      exact le_trans (min_le_right _ _) ih

theorem listMin_mem : ∀ (l : List ℚ), l ≠ [] → listMin l ∈ l
  | [], h => absurd rfl h
  | [x], _ => by simp [listMin]
  | x :: z :: t, _ => by
    have ih := listMin_mem (z :: t) (by simp)
    rw [listMin]
    rcases min_cases x (listMin (z :: t)) with ⟨he, _⟩ | ⟨he, _⟩
    · rw [he]; exact List.mem_cons_self _ _
    · rw [he]; exact List.mem_cons_of_mem _ ih

/-- Members of the differenced series are the head `NaN` or a real
consecutive difference. -/
theorem mem_diff (xs : List ℚ) (d : Option ℚ) (hd : d ∈ diff xs) :
    d = none ∨
      ∃ j, 1 ≤ j ∧ j < xs.length ∧
        d = some (xs.getD j 0 - xs.getD (j - 1) 0) := by
  obtain ⟨j, hj, rfl⟩ := List.mem_map.mp hd
  rw [List.mem_range] at hj
  by_cases h0 : j = 0
  · left; simp [h0]
  · right; exact ⟨j, by omega, hj, by simp [h0]⟩

/-- On strictly rising closes every raw loss cell is zero. -/
theorem lossRaw_all_zero (cs : List ℚ) (hc : List.Chain' (· < ·) cs) :
    ∀ y ∈ lossRaw cs, y = 0 := by
  intro y hy
  obtain ⟨d, hd, rfl⟩ := List.mem_map.mp hy
  rcases mem_diff cs d hd with rfl | ⟨j, hj1, hj2, rfl⟩
  · simp
  · have hpos := chain_lt_delta_pos cs hc j hj1 hj2
    have hnv : ¬(cs.getD j 0 - cs.getD (j - 1) 0 < 0) := not_lt.mpr (le_of_lt hpos)
    show -(if cs.getD j 0 - cs.getD (j - 1) 0 < 0
            then cs.getD j 0 - cs.getD (j - 1) 0 else 0) = 0
    rw [if_neg hnv, neg_zero]

/-- On strictly falling closes every raw gain cell is zero. -/
theorem gainRaw_all_zero (cs : List ℚ) (hc : List.Chain' (· > ·) cs) :
    ∀ y ∈ gainRaw cs, y = 0 := by
  intro y hy
  obtain ⟨d, hd, rfl⟩ := List.mem_map.mp hy
  rcases mem_diff cs d hd with rfl | ⟨j, hj1, hj2, rfl⟩
  · simp
  · have hneg := chain_gt_delta_neg cs hc j hj1 hj2
    have hnv : ¬(0 < cs.getD j 0 - cs.getD (j - 1) 0) := not_lt.mpr (le_of_lt hneg)
    show (if 0 < cs.getD j 0 - cs.getD (j - 1) 0
            then cs.getD j 0 - cs.getD (j - 1) 0 else 0) = 0
    rw [if_neg hnv]

/-- On strictly rising closes the raw gain cell at a real index is
positive. -/
theorem gainRaw_get_pos (cs : List ℚ) (hc : List.Chain' (· < ·) cs)
    (i : Nat) (h1 : 1 ≤ i) (h : i < (gainRaw cs).length) :
    0 < (gainRaw cs).get ⟨i, h⟩ := by
  have hi : i < cs.length := by simpa [gainRaw_length] using h
  have hpos := chain_lt_delta_pos cs hc i h1 hi
  rw [gainRaw_get, if_neg (by omega : ¬i = 0), if_pos hpos]
  exact hpos

/-- On strictly falling closes the raw loss cell at a real index is
positive. -/
theorem lossRaw_get_pos (cs : List ℚ) (hc : List.Chain' (· > ·) cs)
    (i : Nat) (h1 : 1 ≤ i) (h : i < (lossRaw cs).length) :
    0 < (lossRaw cs).get ⟨i, h⟩ := by
  have hi : i < cs.length := by simpa [lossRaw_length] using h
  have hneg := chain_gt_delta_neg cs hc i h1 hi
  rw [lossRaw_get, if_neg (by omega : ¬i = 0), if_pos hneg]
  linarith

/-- A trailing window over an all-zero series sums to zero. -/
theorem window_sum_zero (xs : List ℚ) (a w : Nat)
    (hall : ∀ y ∈ xs, y = 0) : ((xs.drop a).take w).sum = 0 :=
  List.sum_eq_zero (fun y hy =>
    hall y (List.mem_of_mem_drop (List.mem_of_mem_take hy)))

/-- A full trailing window ending at a positive cell of a nonnegative
series has positive sum. -/
theorem window_sum_pos (xs : List ℚ) (w i : Nat) (hw : 1 ≤ w)
    (hwi : w ≤ i + 1) (hi : i < xs.length) (hnn : ∀ y ∈ xs, 0 ≤ y)
    (hpos : 0 < xs.getD i 0) :
    0 < ((xs.drop (i + 1 - w)).take w).sum := by
  have hwin_len : ((xs.drop (i + 1 - w)).take w).length = w :=
    window_length xs hwi hi
  have hk : w - 1 < ((xs.drop (i + 1 - w)).take w).length := by omega
  have hval : ((xs.drop (i + 1 - w)).take w).get ⟨w - 1, hk⟩ = xs.getD i 0 := by
    have hidx : i + 1 - w + (w - 1) = i := by omega
    simp only [List.get_eq_getElem, List.getElem_take, List.getElem_drop, hidx]
    exact (List.getD_eq_getElem xs 0 hi).symm
  have hmem : xs.getD i 0 ∈ (xs.drop (i + 1 - w)).take w :=
    hval ▸ List.get_mem _ _ hk
  have hle := List.single_le_sum
    (fun y hy => hnn y (List.mem_of_mem_drop (List.mem_of_mem_take hy)))
    _ hmem
  linarith

/-! ## The claims -/

/-- C1: `ComputeSMA` — for every non-empty series `s` and positive window
`w` with `len(s) ≥ w`, the output at every index `i ≥ w-1` equals the
arithmetic mean of the `close` values over the trailing `w` observations
ending at `i` (a slice of length exactly `w`), and at every index
`i < w-1` the output is "no value". -/
theorem C1_sma_trailing_mean (s : List Obs) (w i : Nat)
    (hne : s ≠ []) (hw : 0 < w) (hws : w ≤ s.length)
    (h : i < (computeSMA w s).length) :
    (w - 1 ≤ i →
      (computeSMA w s).get ⟨i, h⟩ =
        some ((((s.map Obs.close).drop (i + 1 - w)).take w).sum / (w : ℚ)) ∧
      (((s.map Obs.close).drop (i + 1 - w)).take w).length = w) ∧
    (i < w - 1 → (computeSMA w s).get ⟨i, h⟩ = none) := by
  have hcs : i < (s.map Obs.close).length := by
    simpa [computeSMA_length] using h
  constructor
  · intro hwi
    have hw1 : w ≤ i + 1 := by omega
    exact ⟨rollingMean_get_of_le w (s.map Obs.close) i hw1 h,
      window_length (s.map Obs.close) hw1 hcs⟩
  · intro hwi
    exact rollingMean_get_of_lt w (s.map Obs.close) i (by omega) h

/-- C1 witness: closes `1, 3` with window 2 — index 1 carries the mean 2,
index 0 is "no value". -/
theorem C1_sma_trailing_mean_witness :
    (computeSMA 2 [⟨0, 1, 0, 0, 0⟩, ⟨1, 3, 0, 0, 0⟩]).get
        ⟨1, by rw [computeSMA_length]; norm_num⟩ = some 2 ∧
    (computeSMA 2 [⟨0, 1, 0, 0, 0⟩, ⟨1, 3, 0, 0, 0⟩]).get
        ⟨0, by rw [computeSMA_length]; norm_num⟩ = none := by
  have h1 := (C1_sma_trailing_mean [⟨0, 1, 0, 0, 0⟩, ⟨1, 3, 0, 0, 0⟩] 2 1
    (by simp) (by norm_num) (by simp) (by rw [computeSMA_length]; norm_num)).1
    (by norm_num)
  have h0 := (C1_sma_trailing_mean [⟨0, 1, 0, 0, 0⟩, ⟨1, 3, 0, 0, 0⟩] 2 0
    (by simp) (by norm_num) (by simp) (by rw [computeSMA_length]; norm_num)).2
    (by norm_num)
  refine ⟨?_, h0⟩
  rw [h1.1]
  norm_num

/-- C7: `ComputeSMA` on a series shorter than the window — the operation
is total (one output cell per input row, no failure) and every cell is
"no value". -/
theorem C7_sma_short_series (s : List Obs) (w : Nat) (hs : s.length < w) :
    (computeSMA w s).length = s.length ∧
    ∀ i (h : i < (computeSMA w s).length), (computeSMA w s).get ⟨i, h⟩ = none := by
  refine ⟨computeSMA_length w s, fun i h => ?_⟩
  have hi : i < s.length := by simpa [computeSMA_length] using h
  exact rollingMean_get_of_lt w (s.map Obs.close) i (by omega) h

/-- C7 witness: a one-row series with window 2. -/
theorem C7_sma_short_series_witness :
    (computeSMA 2 [⟨0, 5, 0, 0, 0⟩]).length = 1 ∧
    (computeSMA 2 [⟨0, 5, 0, 0, 0⟩]).get
        ⟨0, by rw [computeSMA_length]; norm_num⟩ = none := by
  have h := C7_sma_short_series [⟨0, 5, 0, 0, 0⟩] 2 (by norm_num)
  exact ⟨h.1, h.2 0 (by rw [computeSMA_length]; norm_num)⟩

/-- C3 (amended): `ComputeRSI` — for every series and window `w`, the
first `w-1` output points (indices `0` through `w-2`) are "no value"
(`NaN`), because the trailing rolling window over the gain/loss series is
not yet full there.  The point at index `w-1` is not in general "no
value": the `where` filter coerces the differencing's leading `NaN` to
`0`, so the first rolling window is already complete at index `w-1`. -/
theorem C3_rsi_leading_nan (s : List Obs) (w i : Nat)
    (hi : i + 1 < w) (h : i < (computeRSI w s).length) :
    (computeRSI w s).get ⟨i, h⟩ = XFloat.nan := by
  have hs : i < s.length := by simpa [computeRSI_length] using h
  have hg : i < (rollingMean w (gainRaw (s.map Obs.close))).length := by
    simpa [rollingMean_length, gainRaw_length] using hs
  have hl : i < (rollingMean w (lossRaw (s.map Obs.close))).length := by
    simpa [rollingMean_length, lossRaw_length] using hs
  rw [computeRSI_get w s i h hg hl,
    rollingMean_get_of_lt w _ i hi hg,
    rollingMean_get_of_lt w _ i hi hl]

/-- C3 witness: window 3 on closes `1, 2, 3` — the cell at index 1
(≤ `w-2`) is `NaN`. -/
theorem C3_rsi_leading_nan_witness :
    (computeRSI 3 [⟨0, 1, 0, 0, 0⟩, ⟨1, 2, 0, 0, 0⟩, ⟨2, 3, 0, 0, 0⟩]).get
        ⟨1, by rw [computeRSI_length]; norm_num⟩ = XFloat.nan :=
  C3_rsi_leading_nan [⟨0, 1, 0, 0, 0⟩, ⟨1, 2, 0, 0, 0⟩, ⟨2, 3, 0, 0, 0⟩] 3 1
    (by norm_num) (by rw [computeRSI_length]; norm_num)

/-- C3 counterexample to the claim as stated: with window 3 on the rising
closes `1, 2, 3`, the output at index `w - 1 = 2` — one of the claim's
"first `w` output points" — is the value `100`, not "no value". -/
theorem C3_rsi_leading_nan_counterexample :
    (computeRSI 3 [⟨0, 1, 0, 0, 0⟩, ⟨1, 2, 0, 0, 0⟩, ⟨2, 3, 0, 0, 0⟩]).get
        ⟨2, by rw [computeRSI_length]; norm_num⟩ = XFloat.fin 100 ∧
    XFloat.fin 100 ≠ XFloat.nan := by
  refine ⟨?_, by simp⟩
  simp only [computeRSI, rollingMean, gainRaw, lossRaw, diff]
  norm_num [List.range_succ, rsiPoint, XFloat.div, XFloat.add, XFloat.sub]

/-- C2: `ComputeRSI` — wherever the output is a value (not `NaN`), that
value lies between 0 and 100. -/
theorem C2_rsi_bounded (s : List Obs) (w i : Nat) (q : ℚ)
    (h : i < (computeRSI w s).length)
    (hq : (computeRSI w s).get ⟨i, h⟩ = XFloat.fin q) :
    0 ≤ q ∧ q ≤ 100 := by
  have hs : i < s.length := by simpa [computeRSI_length] using h
  have hg : i < (rollingMean w (gainRaw (s.map Obs.close))).length := by
    simpa [rollingMean_length, gainRaw_length] using hs
  have hl : i < (rollingMean w (lossRaw (s.map Obs.close))).length := by
    simpa [rollingMean_length, lossRaw_length] using hs
  rw [computeRSI_get w s i h hg hl] at hq
  cases hG : (rollingMean w (gainRaw (s.map Obs.close))).get ⟨i, hg⟩ with
  | none => rw [hG] at hq; simp at hq
  | some g =>
    cases hL : (rollingMean w (lossRaw (s.map Obs.close))).get ⟨i, hl⟩ with
    | none => rw [hG, hL] at hq; simp at hq
    | some l =>
      rw [hG, hL] at hq
      exact rsiPoint_bounds g l q
        (rollingMean_nonneg w _ i g (gainRaw_nonneg _) hg hG)
        (rollingMean_nonneg w _ i l (lossRaw_nonneg _) hl hL) hq

/-- C2 witness: window 2 on closes `1, 3, 2` — the cell at index 2 is the
value `200/3`, which the theorem places in `[0, 100]`. -/
theorem C2_rsi_bounded_witness : 0 ≤ (200 : ℚ) / 3 ∧ (200 : ℚ) / 3 ≤ 100 :=
  C2_rsi_bounded [⟨0, 1, 0, 0, 0⟩, ⟨1, 3, 0, 0, 0⟩, ⟨2, 2, 0, 0, 0⟩] 2 2
    ((200 : ℚ) / 3) (by rw [computeRSI_length]; norm_num)
    (by
      simp only [computeRSI, rollingMean, gainRaw, lossRaw, diff]
      norm_num [List.range_succ, rsiPoint, XFloat.div, XFloat.add, XFloat.sub])

/-- C6: `ComputeRSI` — on a strictly rising close series every output
cell from index `w` on is the value `100` (the rolling mean loss is `0`,
the mean gain positive, so `rs = +∞` and the RSI saturates); on a
strictly falling close series every such cell is the value `0`. -/
theorem C6_rsi_monotone :
    (∀ (s : List Obs) (w i : Nat) (h : i < (computeRSI w s).length),
      List.Chain' (· < ·) (s.map Obs.close) → 1 ≤ w → w ≤ i →
      (computeRSI w s).get ⟨i, h⟩ = XFloat.fin 100) ∧
    (∀ (s : List Obs) (w i : Nat) (h : i < (computeRSI w s).length),
      List.Chain' (· > ·) (s.map Obs.close) → 1 ≤ w → w ≤ i →
      (computeRSI w s).get ⟨i, h⟩ = XFloat.fin 0) := by
  constructor
  · intro s w i h hc hw hwi
    have hs : i < s.length := by simpa [computeRSI_length] using h
    have hw1 : w ≤ i + 1 := by omega
    have hg : i < (rollingMean w (gainRaw (s.map Obs.close))).length := by
      simpa [rollingMean_length, gainRaw_length] using hs
    have hl : i < (rollingMean w (lossRaw (s.map Obs.close))).length := by
      simpa [rollingMean_length, lossRaw_length] using hs
    rw [computeRSI_get w s i h hg hl,
      rollingMean_get_of_le w _ i hw1 hg,
      rollingMean_get_of_le w _ i hw1 hl]
    have hloss : (((lossRaw (s.map Obs.close)).drop (i + 1 - w)).take w).sum = 0 :=
      window_sum_zero _ _ _ (lossRaw_all_zero (s.map Obs.close) hc)
    have hglen : i < (gainRaw (s.map Obs.close)).length := by
      simpa [gainRaw_length] using hs
    have hgain : 0 < (((gainRaw (s.map Obs.close)).drop (i + 1 - w)).take w).sum := by
      refine window_sum_pos (gainRaw (s.map Obs.close)) w i hw hw1
        (by simpa [gainRaw_length] using hs) (gainRaw_nonneg _) ?_
      have hp := gainRaw_get_pos (s.map Obs.close) hc i (by omega) hglen
      rw [List.get_eq_getElem] at hp
      rwa [List.getD_eq_getElem _ 0 hglen]
    show rsiPoint _ _ = XFloat.fin 100
    rw [hloss, zero_div]
    exact rsiPoint_of_pos_zero _ (div_pos hgain (by exact_mod_cast hw))
  · intro s w i h hc hw hwi
    have hs : i < s.length := by simpa [computeRSI_length] using h
    have hw1 : w ≤ i + 1 := by omega
    have hg : i < (rollingMean w (gainRaw (s.map Obs.close))).length := by
      simpa [rollingMean_length, gainRaw_length] using hs
    have hl : i < (rollingMean w (lossRaw (s.map Obs.close))).length := by
      simpa [rollingMean_length, lossRaw_length] using hs
    rw [computeRSI_get w s i h hg hl,
      rollingMean_get_of_le w _ i hw1 hg,
      rollingMean_get_of_le w _ i hw1 hl]
    have hgain : (((gainRaw (s.map Obs.close)).drop (i + 1 - w)).take w).sum = 0 :=
      window_sum_zero _ _ _ (gainRaw_all_zero (s.map Obs.close) hc)
    have hllen : i < (lossRaw (s.map Obs.close)).length := by
      simpa [lossRaw_length] using hs
    have hloss : 0 < (((lossRaw (s.map Obs.close)).drop (i + 1 - w)).take w).sum := by
      refine window_sum_pos (lossRaw (s.map Obs.close)) w i hw hw1
        (by simpa [lossRaw_length] using hs) (lossRaw_nonneg _) ?_
      have hp := lossRaw_get_pos (s.map Obs.close) hc i (by omega) hllen
      rw [List.get_eq_getElem] at hp
      rwa [List.getD_eq_getElem _ 0 hllen]
    show rsiPoint _ _ = XFloat.fin 0
    rw [hgain, zero_div]
    have hlpos : 0 < (((lossRaw (s.map Obs.close)).drop (i + 1 - w)).take w).sum / (w : ℚ) :=
      div_pos hloss (by exact_mod_cast hw)
    rw [rsiPoint_of_pos _ _ le_rfl hlpos]
    norm_num

/-- C6 witness: rising closes `1, 2, 4` give the value `100` at index 2;
falling closes `4, 2, 1` give the value `0` there (window 2). -/
theorem C6_rsi_monotone_witness :
    (computeRSI 2 [⟨0, 1, 0, 0, 0⟩, ⟨1, 2, 0, 0, 0⟩, ⟨2, 4, 0, 0, 0⟩]).get
        ⟨2, by rw [computeRSI_length]; norm_num⟩ = XFloat.fin 100 ∧
    (computeRSI 2 [⟨0, 4, 0, 0, 0⟩, ⟨1, 2, 0, 0, 0⟩, ⟨2, 1, 0, 0, 0⟩]).get
        ⟨2, by rw [computeRSI_length]; norm_num⟩ = XFloat.fin 0 :=
  ⟨C6_rsi_monotone.1 [⟨0, 1, 0, 0, 0⟩, ⟨1, 2, 0, 0, 0⟩, ⟨2, 4, 0, 0, 0⟩] 2 2
      (by rw [computeRSI_length]; norm_num)
      (by norm_num [List.chain'_cons]) (by norm_num) (by norm_num),
   C6_rsi_monotone.2 [⟨0, 4, 0, 0, 0⟩, ⟨1, 2, 0, 0, 0⟩, ⟨2, 1, 0, 0, 0⟩] 2 2
      (by rw [computeRSI_length]; norm_num)
      (by norm_num [List.chain'_cons]) (by norm_num) (by norm_num)⟩

/-- C4: `ComputeSummary` — on any series with at least two rows it
succeeds with latest = last close, change = last close minus previous
close, high = maximum of the `High` column, low = minimum of the `Low`
column, meanVolume = arithmetic mean of the `Volume` column; and on the
spec's two-row example it returns exactly
`latest 11, change 1, high 13, low 9, meanVolume 150`. -/
theorem C4_summary_correct :
    (∀ (s : List Obs) (h2 : 2 ≤ s.length),
      ∃ r, computeSummary s = Except.ok r ∧
        r.latest = (s.getD (s.length - 1) default).close ∧
        r.change = (s.getD (s.length - 1) default).close -
          (s.getD (s.length - 2) default).close ∧
        (∀ o ∈ s, o.high ≤ r.high) ∧ (∃ o ∈ s, r.high = o.high) ∧
        (∀ o ∈ s, r.low ≤ o.low) ∧ (∃ o ∈ s, r.low = o.low) ∧
        r.meanVolume = (s.map Obs.volume).sum / (s.length : ℚ)) ∧
    computeSummary [⟨0, 10, 12, 9, 100⟩, ⟨1, 11, 13, 10, 200⟩] =
      Except.ok ⟨11, 1, 13, 9, 150⟩ := by
  constructor
  · intro s h2
    have hr0 : 0 < s.reverse.length := by simp; omega
    have hr1 : 1 < s.reverse.length := by simp; omega
    have hmapne : s.map Obs.high ≠ [] := by
      cases s with
      | nil => simp at h2
      | cons a t => simp
    have hmapne' : s.map Obs.low ≠ [] := by
      cases s with
      | nil => simp at h2
      | cons a t => simp
    refine ⟨_, by rw [computeSummary, if_pos h2], ?_, ?_, ?_, ?_, ?_, ?_, rfl⟩
    · show (s.reverse.getD 0 default).close = (s.getD (s.length - 1) default).close
      rw [List.getD_eq_getElem _ _ hr0, List.getD_eq_getElem _ _ (by omega : s.length - 1 < s.length)]
      rw [List.getElem_reverse]
      simp
    · show (s.reverse.getD 0 default).close - (s.reverse.getD 1 default).close =
        (s.getD (s.length - 1) default).close - (s.getD (s.length - 2) default).close
      rw [List.getD_eq_getElem _ _ hr0, List.getD_eq_getElem _ _ hr1,
        List.getD_eq_getElem _ _ (by omega : s.length - 1 < s.length),
        List.getD_eq_getElem _ _ (by omega : s.length - 2 < s.length)]
      rw [List.getElem_reverse, List.getElem_reverse]
      congr 2 <;> omega
    · intro o ho
      exact le_listMax (s.map Obs.high) o.high (List.mem_map_of_mem Obs.high ho)
    · obtain ⟨o, ho, he⟩ := List.mem_map.mp (listMax_mem (s.map Obs.high) hmapne)
      exact ⟨o, ho, he.symm⟩
    · intro o ho
      exact listMin_le (s.map Obs.low) o.low (List.mem_map_of_mem Obs.low ho)
    · obtain ⟨o, ho, he⟩ := List.mem_map.mp (listMin_mem (s.map Obs.low) hmapne')
      exact ⟨o, ho, he.symm⟩
  · rw [computeSummary, if_pos (by norm_num)]
    simp only [listMax, listMin]
    norm_num

/-- C4 witness: the general clause applied to the spec's two-row example
series succeeds. -/
theorem C4_summary_correct_witness :
    ∃ r, computeSummary [⟨0, 10, 12, 9, 100⟩, ⟨1, 11, 13, 10, 200⟩] =
      Except.ok r := by
  obtain ⟨r, hr, -⟩ :=
    C4_summary_correct.1 [⟨0, 10, 12, 9, 100⟩, ⟨1, 11, 13, 10, 200⟩] (by norm_num)
  exact ⟨r, hr⟩

/-- C5: `ComputeSummary` — on every series with fewer than two rows the
operation fails with `InsufficientDataError`, and that is the only error
the engine defines (the error type has a single inhabitant). -/
theorem C5_summary_insufficient (s : List Obs) (hs : s.length < 2) :
    computeSummary s = Except.error EngineError.insufficientData ∧
    ∀ e : EngineError, e = EngineError.insufficientData := by
  refine ⟨?_, fun e => by cases e; rfl⟩
  rw [computeSummary, if_neg (by omega)]

/-- C5 witness: a single-row series fails with `InsufficientDataError`. -/
theorem C5_summary_insufficient_witness :
    computeSummary [⟨0, 10, 12, 9, 100⟩] =
      Except.error EngineError.insufficientData :=
  (C5_summary_insufficient [⟨0, 10, 12, 9, 100⟩] (by norm_num)).1

/-- C8: determinism/purity — running any of the three computations a
second time, on the state left behind by the first run, produces the
same output as the first run. -/
theorem C8_engine_deterministic (w : Nat) (st : EngineState) :
    (runSMA w ((runSMA w st).1)).2 = (runSMA w st).2 ∧
    (runRSI w ((runRSI w st).1)).2 = (runRSI w st).2 ∧
    (runSummary ((runSummary st).1)).2 = (runSummary st).2 :=
  ⟨rfl, rfl, rfl⟩

/-- C9: frame condition — no engine operation (SMA, RSI, summary, or the
historical-table preparation) changes the caller's series. -/
theorem C9_engine_frame (w : Nat) (st : EngineState) :
    (runSMA w st).1 = st ∧ (runRSI w st).1 = st ∧
    (runSummary st).1 = st ∧ (prepareHistorical st).1 = st :=
  ⟨rfl, rfl, rfl, rfl⟩

/-- C10: the displayed Average Volume is the mean volume divided by one
million and truncated toward zero, so any series of nonnegative volumes
whose mean volume is below one million displays as `0`. -/
theorem C10_avg_volume_display (s : List Obs) (hne : s ≠ [])
    (hv : ∀ o ∈ s, 0 ≤ o.volume)
    (hlt : (s.map Obs.volume).sum / (s.length : ℚ) < 1000000) :
    displayedAvgVolume s =
      truncQ (((s.map Obs.volume).sum / (s.length : ℚ)) / 1000000) ∧
    displayedAvgVolume s = 0 := by
  refine ⟨rfl, ?_⟩
  have hsum : 0 ≤ (s.map Obs.volume).sum := by
    refine List.sum_nonneg (fun x hx => ?_)
    obtain ⟨o, ho, rfl⟩ := List.mem_map.mp hx
    exact hv o ho
  have hlen : (0 : ℚ) ≤ (s.length : ℚ) := by positivity
  have hmean : 0 ≤ (s.map Obs.volume).sum / (s.length : ℚ) :=
    div_nonneg hsum hlen
  have hq0 : 0 ≤ ((s.map Obs.volume).sum / (s.length : ℚ)) / 1000000 :=
    div_nonneg hmean (by norm_num)
  have hq1 : ((s.map Obs.volume).sum / (s.length : ℚ)) / 1000000 < 1 := by
    rw [div_lt_one (by norm_num)]
    linarith
  rw [displayedAvgVolume, truncQ, if_pos hq0]
  rw [Int.floor_eq_zero_iff]
  exact ⟨hq0, hq1⟩

/-- C10 witness: two rows with volumes 100 and 200 — the mean volume is
150, far below one million, and the display is `0`. -/
theorem C10_avg_volume_display_witness :
    displayedAvgVolume [⟨0, 10, 12, 9, 100⟩, ⟨1, 11, 13, 10, 200⟩] = 0 :=
  (C10_avg_volume_display [⟨0, 10, 12, 9, 100⟩, ⟨1, 11, 13, 10, 200⟩]
    (by simp) (by
      intro o ho
      simp only [List.mem_cons, List.not_mem_nil, or_false] at ho
      rcases ho with rfl | rfl <;> norm_num)
    (by norm_num)).2

end StockAnalysis
